import Mathlib

/-!
Verification of the network protocol engine of `mink-raft` (`src/network.rs`).

We shallowly embed the varint codec, the compression framing of
`NetworkManager::send_packet` / `NetworkManager::next_packet`, and the
connection state machine (`login`, `status`, `update`, `handle_packet`,
`handle_message`) as pure Lean functions over byte lists and explicit state,
and prove the specified properties about them.

Machine integers are modelled as `Nat` / `Int` with explicit wrap-around:
`u32` values are naturals kept below `2 ^ 32`, `i32` values are integers in
`[-2 ^ 31, 2 ^ 31)`, and the Rust casts (`as u32`, `as i32`, `as usize`,
`as u8`) are explicit conversion functions. Shifts on `u32` use the masked
shift amount (`% 32`), which is the wrapping semantics of a released Rust
binary. Bytes are naturals (kept below `256` by the code paths modelled).
-/

namespace MinkRaft

/-! ## Integer cast helpers -/

/-- Rust `v as u32` for an `i32` value `v` (two's complement). -/
def i32ToU32 (v : Int) : Nat := (v % 2 ^ 32).toNat

/-- Rust `u as i32` for a `u32` value `u` (two's complement). -/
def u32ToI32 (u : Nat) : Int := if u < 2 ^ 31 then (u : Int) else (u : Int) - 2 ^ 32

/-- Rust `n as i32` for a `usize` value `n` (truncation, then reinterpret). -/
def usizeToI32 (n : Nat) : Int := u32ToI32 (n % 2 ^ 32)

/-- Rust `v as usize` for an `i32` value `v` (sign extension to 64 bits). -/
def i32ToUsize (v : Int) : Nat := (v % 2 ^ 64).toNat

/-! ## Bit manipulation lemmas used by the varint proofs -/

theorem and_high_mask_eq (val : Nat) :
    val &&& 0xFFFFFF80 = ((val >>> 7) % 2 ^ 25) <<< 7 := by
  have hm : (0xFFFFFF80 : Nat) = (2 ^ 25 - 1) <<< 7 := by
    norm_num [Nat.shiftLeft_eq]
  rw [hm]
  apply Nat.eq_of_testBit_eq
  intro i
  simp only [Nat.testBit_and, Nat.testBit_shiftLeft, Nat.testBit_mod_two_pow,
    Nat.testBit_shiftRight, Nat.testBit_two_pow_sub_one]
  by_cases h7 : 7 ≤ i
  · have hi : 7 + (i - 7) = i := by omega
    rw [hi]
    cases val.testBit i <;> simp [h7]
  · simp [h7]

theorem and_high_mask_eq_zero_iff {val : Nat} (h : val < 2 ^ 32) :
    val &&& 0xFFFFFF80 = 0 ↔ val < 0x80 := by
  rw [and_high_mask_eq]
  have hdiv : val >>> 7 = val / 2 ^ 7 := Nat.shiftRight_eq_div_pow val 7
  have hsmall : val / 2 ^ 7 < 2 ^ 25 := by omega
  rw [hdiv, Nat.mod_eq_of_lt hsmall, Nat.shiftLeft_eq]
  constructor
  · intro h0
    rcases Nat.mul_eq_zero.mp h0 with h1 | h1
    · omega
    · norm_num at h1
  · intro h0
    have : val / 2 ^ 7 = 0 := by omega
    rw [this, Nat.zero_mul]

theorem cont_byte_and_7F (val : Nat) : (val % 256 ||| 0x80) &&& 0x7F = val % 0x80 := by
  rw [Nat.and_distrib_right]
  have h1 : val % 256 &&& 0x7F = val % 256 % 0x80 := by
    have : (0x7F : Nat) = 2 ^ 7 - 1 := by norm_num
    rw [this, Nat.and_pow_two_sub_one_eq_mod]
  have h2 : (0x80 : Nat) &&& 0x7F = 0 := by decide
  rw [h1, h2, Nat.or_zero]
  omega

theorem cont_byte_and_80 (val : Nat) : (val % 256 ||| 0x80) &&& 0x80 ≠ 0 := by
  intro h
  have := congrArg (fun x => Nat.testBit x 7) h
  simp only [Nat.testBit_and, Nat.testBit_or, Nat.zero_testBit] at this
  have h80 : Nat.testBit 0x80 7 = true := by decide
  rw [h80] at this
  simp at this

theorem low_byte_and_80 {val : Nat} (h : val < 0x80) : val &&& 0x80 = 0 := by
  have h7 : val.testBit 7 = false := Nat.testBit_lt_two_pow (by norm_num at h ⊢; omega)
  have : (0x80 : Nat) = 2 ^ 7 := by norm_num
  rw [this, Nat.and_two_pow, h7]
  simp

/-- Bitwise or of disjoint parts is addition: if `val < 2 ^ m`, then
`val ||| (d <<< m) = val + d * 2 ^ m`. -/
theorem or_shiftLeft_eq_add {val : Nat} (d m : Nat) (h : val < 2 ^ m) :
    val ||| (d <<< m) = val + d * 2 ^ m := by
  rw [Nat.shiftLeft_eq, Nat.or_comm, Nat.mul_comm d (2 ^ m), ← Nat.mul_add_lt_is_or h d]
  omega

/-! ## Varint codec (source: `read_varint` / `write_varint`, network.rs 532-568) -/

/-- The loop of `read_varint`: reads bytes one at a time, or-ing the low
7 bits of each into `val` at position `size * 7`, stopping at the first byte
with the continuation bit `0x80` clear. `none` models `read_exact` failing
(stream exhausted). The shift amount is masked by `% 32` (u32 wrapping
shift). -/
def readVarintLoop : List Nat → Nat → Nat → Option (Nat × List Nat)
  | [], _, _ => none
  | b :: rest, size, val =>
    let val2 := (val ||| ((b &&& 0x7F) <<< (size * 7 % 32))) % 2 ^ 32
    if b &&& 0x80 = 0 then some (val2, rest) else readVarintLoop rest (size + 1) val2

/-- `read_varint`: runs the loop from `size = 0`, `val = 0` and reinterprets
the accumulated u32 as an i32 (`Ok(val as i32)`). Returns the decoded value
and the unconsumed remainder of the stream. -/
def read_varint (bs : List Nat) : Option (Int × List Nat) :=
  (readVarintLoop bs 0 0).map fun p => (u32ToI32 p.1, p.2)

/-- The loop of `write_varint`, on the u32 reinterpretation of the input
(`let mut val = val as u32`). While `val & !0x7F != 0`, pushes
`val as u8 | !0x7F` (that is `val % 256 ||| 0x80`) and shifts `val` right by
7; the final byte `val as u8` has the continuation bit clear. -/
def writeVarintU32 (val : Nat) : List Nat :=
  if h : val &&& 0xFFFFFF80 = 0 then [val % 256]
  else (val % 256 ||| 0x80) :: writeVarintU32 (val >>> 7)
decreasing_by
  have hne : val ≠ 0 := by
    intro h0
    subst h0
    simp at h
  calc val >>> 7 = val / 2 ^ 7 := Nat.shiftRight_eq_div_pow val 7
    _ < val := Nat.div_lt_self (Nat.pos_of_ne_zero hne) (by norm_num)

/-- `write_varint`: casts the i32 input to u32 and runs the byte loop. -/
def write_varint (v : Int) : List Nat := writeVarintU32 (i32ToU32 v)

theorem writeVarintU32_ne_nil (u : Nat) : writeVarintU32 u ≠ [] := by
  unfold writeVarintU32
  split <;> simp

/-- Invariant of the decode loop run over the encoder's output: starting at
position `size = s` with accumulator `val`, decoding the bytes of `u`
followed by `rest` yields `val + u * 2 ^ (7 * s)` and leaves `rest`. -/
theorem readVarintLoop_writeVarintU32 (u : Nat) :
    ∀ (s val : Nat) (rest : List Nat),
      u < 2 ^ (32 - 7 * s) → s ≤ 4 → val < 2 ^ (7 * s) →
      readVarintLoop (writeVarintU32 u ++ rest) s val
        = some (val + u * 2 ^ (7 * s), rest) := by
  induction u using Nat.strong_induction_on with
  | _ u ih =>
    intro s val rest hu hs hval
    have hu32 : u < 2 ^ 32 := by
      calc u < 2 ^ (32 - 7 * s) := hu
        _ ≤ 2 ^ 32 := Nat.pow_le_pow_right (by norm_num) (by omega)
    have hshift : s * 7 % 32 = 7 * s := by omega
    unfold writeVarintU32
    by_cases h0 : u &&& 0xFFFFFF80 = 0
    · rw [dif_pos h0]
      have hlt : u < 0x80 := (and_high_mask_eq_zero_iff hu32).mp h0
      have hmod : u % 256 = u := Nat.mod_eq_of_lt (by omega)
      have hand7F : u &&& 0x7F = u := by
        have : (0x7F : Nat) = 2 ^ 7 - 1 := by norm_num
        rw [this]
        exact Nat.and_pow_two_sub_one_of_lt_two_pow (by norm_num at hlt ⊢; omega)
      have hbound : val + u * 2 ^ (7 * s) < 2 ^ 32 := by
        have h1 : val + u * 2 ^ (7 * s) < (u + 1) * 2 ^ (7 * s) := by
          rw [Nat.add_mul, Nat.one_mul]
          omega
        have h2 : (u + 1) * 2 ^ (7 * s) ≤ 2 ^ (32 - 7 * s) * 2 ^ (7 * s) :=
          Nat.mul_le_mul_right _ hu
        have h3 : 2 ^ (32 - 7 * s) * 2 ^ (7 * s) = 2 ^ 32 := by
          rw [← pow_add]
          congr 1
          omega
        omega
      simp only [List.singleton_append, readVarintLoop, hmod, hand7F, hshift]
      rw [if_pos (low_byte_and_80 hlt)]
      rw [or_shiftLeft_eq_add u (7 * s) hval, Nat.mod_eq_of_lt hbound]
      simp
    · rw [dif_neg h0]
      have hge : ¬ u < 0x80 := fun hlt => h0 ((and_high_mask_eq_zero_iff hu32).mpr hlt)
      have hs3 : s ≤ 3 := by
        by_contra hs4
        have hs4 : s = 4 := by omega
        subst hs4
        norm_num at hu
        omega
      simp only [List.cons_append, readVarintLoop, cont_byte_and_7F, hshift]
      rw [if_neg (cont_byte_and_80 u)]
      have hvalbound : val + u % 0x80 * 2 ^ (7 * s) < 2 ^ (7 * (s + 1)) := by
        have : 2 ^ (7 * (s + 1)) = 2 ^ (7 * s) * 2 ^ 7 := by
          rw [Nat.mul_succ, pow_add]
        rw [this]
        have : u % 0x80 ≤ 0x7F := by omega
        have h1 : u % 0x80 * 2 ^ (7 * s) ≤ 0x7F * 2 ^ (7 * s) :=
          Nat.mul_le_mul_right _ this
        omega
      have hval32 : val + u % 0x80 * 2 ^ (7 * s) < 2 ^ 32 := by
        calc val + u % 0x80 * 2 ^ (7 * s) < 2 ^ (7 * (s + 1)) := hvalbound
          _ ≤ 2 ^ 32 := Nat.pow_le_pow_right (by norm_num) (by omega)
      rw [or_shiftLeft_eq_add (u % 0x80) (7 * s) hval, Nat.mod_eq_of_lt hval32]
      have hrec : u >>> 7 < u := by
        rw [Nat.shiftRight_eq_div_pow]
        exact Nat.div_lt_self (by omega) (by norm_num)
      have hudiv : u >>> 7 = u / 2 ^ 7 := Nat.shiftRight_eq_div_pow u 7
      have hu' : u >>> 7 < 2 ^ (32 - 7 * (s + 1)) := by
        rw [hudiv]
        have hsplit : 2 ^ (32 - 7 * s) = 2 ^ (32 - 7 * (s + 1)) * 2 ^ 7 := by
          rw [← pow_add]
          congr 1
          omega
        apply Nat.div_lt_of_lt_mul
        rw [Nat.mul_comm]
        omega
      simp only [List.append_eq]
      rw [ih (u >>> 7) hrec (s + 1) _ rest hu' (by omega) hvalbound]
      have hkey : val + u % 0x80 * 2 ^ (7 * s) + u >>> 7 * 2 ^ (7 * (s + 1))
          = val + u * 2 ^ (7 * s) := by
        rw [hudiv]
        have hpow : 2 ^ (7 * (s + 1)) = 2 ^ 7 * 2 ^ (7 * s) := by
          rw [Nat.mul_succ, pow_add, Nat.mul_comm]
        rw [hpow]
        have hsum : u % 0x80 * 2 ^ (7 * s) + u / 2 ^ 7 * (2 ^ 7 * 2 ^ (7 * s))
            = u * 2 ^ (7 * s) := by
          conv_rhs => rw [← Nat.mod_add_div u (2 ^ 7)]
          ring_nf
        omega
      rw [hkey]

/-- Specialisation: decoding the encoder's output for a u32 value `u`,
followed by any `rest`, returns exactly `u` and leaves `rest`. -/
theorem readVarintLoop_roundtrip (u : Nat) (h : u < 2 ^ 32) (rest : List Nat) :
    readVarintLoop (writeVarintU32 u ++ rest) 0 0 = some (u, rest) := by
  have := readVarintLoop_writeVarintU32 u 0 0 rest (by simpa using h) (by omega) (by norm_num)
  simpa using this

theorem i32ToU32_lt (v : Int) : i32ToU32 v < 2 ^ 32 := by
  unfold i32ToU32
  omega

theorem u32ToI32_i32ToU32 {v : Int} (h1 : -2 ^ 31 ≤ v) (h2 : v < 2 ^ 31) :
    u32ToI32 (i32ToU32 v) = v := by
  unfold u32ToI32 i32ToU32
  split <;> omega

/-- Varint round-trip at the i32 level, with arbitrary trailing bytes. -/
theorem read_write_varint {v : Int} (h1 : -2 ^ 31 ≤ v) (h2 : v < 2 ^ 31)
    (rest : List Nat) :
    read_varint (write_varint v ++ rest) = some (v, rest) := by
  unfold read_varint write_varint
  rw [readVarintLoop_roundtrip (i32ToU32 v) (i32ToU32_lt v) rest]
  simp [u32ToI32_i32ToU32 h1 h2]

/-- C1. VarInt round-trip: for every 32-bit signed integer `v`, decoding the
byte sequence produced by `write_varint v` with `read_varint` returns exactly
`v` (consuming the whole sequence). -/
theorem c1_varint_roundtrip (v : Int) (h1 : -2 ^ 31 ≤ v) (h2 : v < 2 ^ 31) :
    read_varint (write_varint v) = some (v, []) := by
  have := read_write_varint h1 h2 []
  simpa using this

/-- Witness for C1 at `v = -1`. -/
theorem c1_varint_roundtrip_witness :
    -2 ^ 31 ≤ (-1 : Int) ∧ (-1 : Int) < 2 ^ 31
      ∧ read_varint (write_varint (-1)) = some (-1, []) :=
  ⟨by norm_num, by norm_num, c1_varint_roundtrip (-1) (by norm_num) (by norm_num)⟩

/-! ## C9: the decode loop has no byte-count bound -/

/-- The decode loop consumes bytes up to and including the first byte whose
continuation bit `0x80` is clear, at any position `k`, and always produces a
value there: there is no 5-byte cap and no malformed-varint failure path. -/
theorem readVarintLoop_consumes (k : Nat) :
    ∀ (bs : List Nat) (s val : Nat), 1 ≤ k → k ≤ bs.length →
      (∀ i, i < k - 1 → bs.getD i 0 &&& 0x80 ≠ 0) →
      bs.getD (k - 1) 0 &&& 0x80 = 0 →
      ∃ v, readVarintLoop bs s val = some (v, bs.drop k) := by
  induction k with
  | zero => omega
  | succ k ih =>
    intro bs s val _ hlen hcont hstop
    match bs with
    | [] => simp at hlen
    | b :: rest =>
      by_cases hk : k = 0
      · subst hk
        have hstop0 : b &&& 0x80 = 0 := by simpa using hstop
        refine ⟨(val ||| ((b &&& 0x7F) <<< (s * 7 % 32))) % 2 ^ 32, ?_⟩
        simp only [readVarintLoop, if_pos hstop0, List.drop_succ_cons, List.drop_zero]
      · have hb : b &&& 0x80 ≠ 0 := by
          have := hcont 0 (by omega)
          simpa using this
        simp only [readVarintLoop, if_neg hb, List.drop_succ_cons]
        apply ih rest (s + 1) _ (by omega) (by simpa using hlen)
        · intro i hi
          have := hcont (i + 1) (by omega)
          simpa using this
        · have : (k + 1) - 1 = (k - 1) + 1 := by omega
          rw [this] at hstop
          simpa using hstop

/-- C9. VarInt decoding has no byte-count bound: if the first byte of `bs`
with a clear continuation bit sits at position `k` (1-based), for any
`k ≥ 1` including `k > 5`, then `read_varint` succeeds, consuming exactly
the first `k` bytes. -/
theorem c9_read_varint_unbounded (bs : List Nat) (k : Nat)
    (h1 : 1 ≤ k) (h2 : k ≤ bs.length)
    (h3 : ∀ i, i < k - 1 → bs.getD i 0 &&& 0x80 ≠ 0)
    (h4 : bs.getD (k - 1) 0 &&& 0x80 = 0) :
    ∃ v, read_varint bs = some (v, bs.drop k) := by
  obtain ⟨v, hv⟩ := readVarintLoop_consumes k bs 0 0 h1 h2 h3 h4
  exact ⟨u32ToI32 v, by simp [read_varint, hv]⟩

/-- Witness for C9 on a 7-byte varint (beyond the 5-byte maximum of the
32-bit range): decoding succeeds and consumes all 7 bytes. -/
theorem c9_read_varint_unbounded_witness :
    ∃ v, read_varint [0x81, 0x82, 0x83, 0x84, 0x85, 0x86, 0x07]
      = some (v, []) := by
  have h := c9_read_varint_unbounded [0x81, 0x82, 0x83, 0x84, 0x85, 0x86, 0x07] 7
    (by norm_num) (by simp) (by decide) (by decide)
  simpa using h

/-! ## Frame encode / decode with optional compression
(source: `NetworkManager::send_packet`, network.rs 418-451, and
`NetworkManager::next_packet`, network.rs 175-254)

The zlib backend (`miniz_oxide`) is external to the repository, so the
deflate and inflate functions are parameters; round-trip theorems hypothesise
`inflate (deflate x) = some x` for the packet in question. The packet rather
than its deserialized form is the decoder result: `next_packet` is modelled
down to the `(packet id, packet body bytes)` pair handed to
`RawPacketType::create`, plus the unconsumed remainder of the stream. -/

/-- `send_packet`: frames the pre-encoded `[id][body]` bytes `packet`.
With compression on and `packet.len() >= threshold`, writes
`varint(dataLen.len + deflated.len) ++ varint(packet.len) ++ deflated`;
with compression on and a short packet, `varint(packet.len + 1) ++ 0x00 ++
packet`; with compression off, `varint(packet.len) ++ packet`. Lengths are
cast `usize -> i32` before the varint write, as in the source. -/
def send_packet (compress : Bool) (threshold : Nat)
    (deflate : List Nat → List Nat) (packet : List Nat) : List Nat :=
  if compress then
    if packet.length ≥ threshold then
      let data_length := write_varint (usizeToI32 packet.length)
      let compressed := deflate packet
      let packet_length := write_varint (usizeToI32 (data_length.length + compressed.length))
      packet_length ++ data_length ++ compressed
    else
      write_varint (usizeToI32 (packet.length + 1)) ++ [0] ++ packet
  else
    write_varint (usizeToI32 packet.length) ++ packet

/-- `next_packet`: reads the frame length varint, takes that many bytes as
`buf`, and extracts `(id, contents)` from `buf`: directly when compression is
off; through the data-length prefix (`0` meaning raw, otherwise inflating
the remainder) when on. `none` models every io / length / inflate failure
path (recall inflate failure is an unreachable `todo!()` in the source). -/
def next_packet (compress : Bool) (inflate : List Nat → Option (List Nat))
    (stream : List Nat) : Option ((Int × List Nat) × List Nat) :=
  match read_varint stream with
  | none => none
  | some (len, s1) =>
    let n := i32ToUsize len
    if n ≤ s1.length then
      let buf := s1.take n
      let s2 := s1.drop n
      if compress then
        match read_varint buf with
        | none => none
        | some (dataLen, afterLen) =>
          if dataLen = 0 then
            match read_varint afterLen with
            | none => none
            | some (id, contents) => some ((id, contents), s2)
          else
            match inflate afterLen with
            | none => none
            | some uncompressed =>
              match read_varint uncompressed with
              | none => none
              | some (id, contents) => some ((id, contents), s2)
      else
        match read_varint buf with
        | none => none
        | some (id, contents) => some ((id, contents), s2)
    else none

theorem usizeToI32_of_lt {n : Nat} (h : n < 2 ^ 31) : usizeToI32 n = (n : Int) := by
  unfold usizeToI32 u32ToI32
  have : n % 2 ^ 32 = n := Nat.mod_eq_of_lt (by omega)
  rw [this]
  split <;> omega

theorem i32ToUsize_of_nat {n : Nat} (h : n < 2 ^ 31) : i32ToUsize (n : Int) = n := by
  unfold i32ToUsize
  omega

/-- Reading a length varint written from a `usize` below `2 ^ 31` recovers
that length. -/
theorem read_varint_usize {n : Nat} (h : n < 2 ^ 31) (rest : List Nat) :
    read_varint (write_varint (usizeToI32 n) ++ rest) = some ((n : Int), rest) := by
  rw [usizeToI32_of_lt h]
  exact read_write_varint (by omega) (by omega) rest

/-- Concrete evaluation: a value below `0x80` encodes as a single byte. -/
theorem write_varint_small {n : Nat} (h : n < 0x80) : write_varint (n : Int) = [n] := by
  have h1 : i32ToU32 (n : Int) = n := by
    unfold i32ToU32
    omega
  have h2 : n &&& 0xFFFFFF80 = 0 := (and_high_mask_eq_zero_iff (by omega)).mpr h
  rw [write_varint, h1]
  unfold writeVarintU32
  rw [dif_pos h2]
  simp [Nat.mod_eq_of_lt (show n < 256 by omega)]

theorem write_varint_one : write_varint (1 : Int) = [1] := by
  have := write_varint_small (n := 1) (by norm_num)
  simpa using this

theorem write_varint_three : write_varint (3 : Int) = [3] := by
  have := write_varint_small (n := 3) (by norm_num)
  simpa using this

theorem packet_length_pos (id : Int) (body : List Nat) :
    0 < (write_varint id ++ body).length := by
  rw [List.length_append]
  have hne : write_varint id ≠ [] := writeVarintU32_ne_nil (i32ToU32 id)
  have := List.length_pos.mpr hne
  omega

/-- C2. Compressed frame above threshold: with compression enabled and the
raw `[id][body]` bytes at least `threshold` long, the encoder outputs
`varint(dataLenPrefix.len + deflated.len) ++ dataLenPrefix ++ deflated`
(`dataLenPrefix = varint(bytes.len)`, `deflated = deflate bytes`), and the
compression-enabled decoder recovers exactly `(id, body)`, consuming the
whole frame, whenever inflate inverts deflate on those bytes. -/
theorem c2_compressed_frame_roundtrip
    (deflate : List Nat → List Nat) (inflate : List Nat → Option (List Nat))
    (id : Int) (body : List Nat) (threshold : Nat)
    (hid1 : -2 ^ 31 ≤ id) (hid2 : id < 2 ^ 31)
    (hthr : (write_varint id ++ body).length ≥ threshold)
    (hplen : (write_varint id ++ body).length < 2 ^ 31)
    (hflen : (write_varint (usizeToI32 (write_varint id ++ body).length)).length
        + (deflate (write_varint id ++ body)).length < 2 ^ 31)
    (hinfl : inflate (deflate (write_varint id ++ body))
        = some (write_varint id ++ body)) :
    send_packet true threshold deflate (write_varint id ++ body)
        = write_varint (usizeToI32
            ((write_varint (usizeToI32 (write_varint id ++ body).length)).length
              + (deflate (write_varint id ++ body)).length))
          ++ write_varint (usizeToI32 (write_varint id ++ body).length)
          ++ deflate (write_varint id ++ body)
    ∧ next_packet true inflate
        (send_packet true threshold deflate (write_varint id ++ body))
        = some ((id, body), []) := by
  have hshape : send_packet true threshold deflate (write_varint id ++ body)
      = write_varint (usizeToI32
          ((write_varint (usizeToI32 (write_varint id ++ body).length)).length
            + (deflate (write_varint id ++ body)).length))
        ++ write_varint (usizeToI32 (write_varint id ++ body).length)
        ++ deflate (write_varint id ++ body) := by
    rw [send_packet, if_pos rfl, if_pos hthr]
  refine ⟨hshape, ?_⟩
  rw [hshape]
  set packet := write_varint id ++ body with hpacket
  set dl := write_varint (usizeToI32 packet.length) with hdl
  set c := deflate packet with hc
  rw [next_packet, List.append_assoc, read_varint_usize hflen (dl ++ c)]
  dsimp only
  simp only [i32ToUsize_of_nat hflen]
  rw [if_pos (le_of_eq (List.length_append dl c).symm)]
  rw [show dl.length + c.length = (dl ++ c).length from (List.length_append dl c).symm,
    List.take_length, List.drop_length]
  simp only [if_true]
  rw [hdl, read_varint_usize hplen c]
  dsimp only
  have hne : ((packet.length : Int)) ≠ 0 := by
    have := packet_length_pos id body
    rw [← hpacket] at this
    omega
  rw [if_neg hne, hc, hinfl]
  dsimp only
  rw [hpacket, read_write_varint hid1 hid2 body]

/-- Witness for C2 with identity deflate / inflate, `id = 1`,
`body = [2, 3]`, `threshold = 0`. -/
theorem c2_compressed_frame_roundtrip_witness :
    next_packet true (fun x => some x)
        (send_packet true 0 (fun x => x) (write_varint 1 ++ [2, 3]))
      = some ((1, [2, 3]), []) := by
  refine (c2_compressed_frame_roundtrip (fun x => x) (fun x => some x) 1 [2, 3] 0
    (by norm_num) (by norm_num) (Nat.zero_le _) ?_ ?_ rfl).2
  · rw [write_varint_one]
    norm_num
  · rw [write_varint_one]
    have h1 : (([1] ++ [2, 3] : List Nat)).length = 3 := by norm_num
    rw [h1, usizeToI32_of_lt (by norm_num),
      show (((3 : Nat) : Int)) = (3 : Int) by norm_num, write_varint_three]
    norm_num

/-- C3. Compressed frame below threshold: with compression enabled and the
raw `[id][body]` bytes shorter than `threshold`, the encoder outputs
`varint(bytes.len + 1) ++ 0x00 ++ bytes`, and the compression-enabled
decoder recovers exactly `(id, body)` for EVERY inflate function — in
particular for one that always fails — so inflate is never consulted. -/
theorem c3_uncompressed_frame_roundtrip
    (deflate : List Nat → List Nat) (id : Int) (body : List Nat) (threshold : Nat)
    (hid1 : -2 ^ 31 ≤ id) (hid2 : id < 2 ^ 31)
    (hthr : ¬ (write_varint id ++ body).length ≥ threshold)
    (hplen : (write_varint id ++ body).length + 1 < 2 ^ 31) :
    send_packet true threshold deflate (write_varint id ++ body)
        = write_varint (usizeToI32 ((write_varint id ++ body).length + 1))
          ++ [0] ++ (write_varint id ++ body)
    ∧ ∀ inflate, next_packet true inflate
        (send_packet true threshold deflate (write_varint id ++ body))
        = some ((id, body), []) := by
  have hshape : send_packet true threshold deflate (write_varint id ++ body)
      = write_varint (usizeToI32 ((write_varint id ++ body).length + 1))
        ++ [0] ++ (write_varint id ++ body) := by
    rw [send_packet, if_pos rfl, if_neg hthr]
  refine ⟨hshape, fun inflate => ?_⟩
  rw [hshape]
  set packet := write_varint id ++ body with hpacket
  rw [next_packet, List.append_assoc, read_varint_usize hplen ([0] ++ packet)]
  dsimp only
  simp only [i32ToUsize_of_nat hplen]
  have hlen : packet.length + 1 = ([0] ++ packet).length := by
    simp [List.singleton_append]
  rw [if_pos (le_of_eq hlen), hlen, List.take_length, List.drop_length]
  simp only [if_true]
  have hzero : read_varint ([0] ++ packet) = some ((0 : Int), packet) := by
    simp [read_varint, List.singleton_append, readVarintLoop, u32ToI32]
  rw [hzero]
  dsimp only
  rw [if_pos rfl, hpacket, read_write_varint hid1 hid2 body]

/-- Witness for C3 with `id = 1`, `body = [2, 3]`, `threshold = 100`, and an
inflate function that always fails (so any invocation of inflate would make
decoding fail rather than succeed). -/
theorem c3_uncompressed_frame_roundtrip_witness :
    next_packet true (fun _ => none)
        (send_packet true 100 (fun x => x) (write_varint 1 ++ [2, 3]))
      = some ((1, [2, 3]), []) :=
  (c3_uncompressed_frame_roundtrip (fun x => x) 1 [2, 3] 100
    (by norm_num) (by norm_num)
    (by rw [write_varint_one]; norm_num)
    (by rw [write_varint_one]; norm_num)).2 (fun _ => none)

/-! ## Connection state machine
(source: `NetworkManager` struct and its `login` / `status` / `update` /
`handle_packet` / `handle_message` methods)

Packets are modelled at the structured level (the `Packet753` variants the
claims mention, the rest collapsed into `otherPlay`); the byte codec above
is the wire image of `encode` / `RawPacketType::create`. The mpsc channel
is modelled by returning the list of `NetworkCommand` events sent to the
application, and the socket by returning the list of packets written to the
wire. The packets available to read are an explicit list of read results;
each `ReadResult` is one outcome of a `next_packet` call. -/

inductive ProtocolState where
  | Handshake
  | Status
  | Login
  | Play
deriving DecidableEq

/-- The packet variants of the protocol (`PacketType = Packet753`). -/
inductive Packet where
  | loginEncryptionRequest
  | loginSetCompression (threshold : Int)
  | loginDisconnect (reason : String)
  | loginPluginRequest
  | loginSuccess (name : String)
  | playServerKeepAlive (keepAliveId : Int)
  | playClientKeepAlive (keepAliveId : Int)
  | playDisconnect (reason : String)
  | statusResponse (response : String)
  | otherPlay (tag : Nat)
deriving DecidableEq

/-- `NetworkCommand`: the messages exchanged over the channel. -/
inductive NetworkCommand where
  | ok
  | error
  | disconnect
  | login (protocol : Int) (port : Nat) (name : String)
  | sendPacket (bytes : List Nat)
  | receivePacket (p : Packet)
  | requestStatus
  | receiveStatus (response : String)
  | spawn
deriving DecidableEq

/-- The mutable state of `NetworkManager` (the `TcpStream` and channel
handles live outside the model). -/
structure NetworkManager where
  close : Bool
  compress : Bool
  threshold : Nat
  state : ProtocolState
  count : Nat
deriving DecidableEq

/-- The `NetworkManager` value built in `connect` (network.rs 94-102). -/
def connect_init : NetworkManager :=
  { close := false, compress := false, threshold := 0,
    state := ProtocolState.Status, count := 0 }

/-- One outcome of a `next_packet` call, as seen by the worker loops. -/
inductive ReadResult where
  | packet (p : Packet)
  | decodeError
  | ioWouldBlock
  | ioError
deriving DecidableEq

/-- `handle_packet` (network.rs 487-509): returns the updated state, the
packets written to the wire, and the events sent to the application. -/
def handle_packet (nm : NetworkManager) (packet : Packet) :
    NetworkManager × List Packet × List NetworkCommand :=
  match packet with
  | .playServerKeepAlive i => (nm, [.playClientKeepAlive i], [])
  | .loginSetCompression t =>
    if t ≤ 0 then ({ nm with compress := false }, [], [])
    else ({ nm with compress := true, threshold := t.toNat }, [], [])
  | _ => (nm, [], [.receivePacket packet])

/-- Result of the `login` receive loop. `panicked` models the `panic!`
calls; `starved` is the model artifact for running out of supplied read
results (the real loop would keep waiting). -/
inductive LoginResult where
  | success
  | failure
  | panicked
  | starved
deriving DecidableEq

/-- The receive loop of `login` (network.rs 292-349), run over the supplied
read results after the handshake and login-start packets have been sent:
decode errors and non-WouldBlock io errors panic; `SetCompression` updates
compression state and continues; `LoginDisconnect` forwards the packet,
sets `close` and fails; `LoginSuccess` moves to Play, forwards the packet
and succeeds; encryption / plugin requests panic; anything else is logged
and skipped. -/
def login_loop (nm : NetworkManager) :
    List ReadResult → NetworkManager × List NetworkCommand × LoginResult
  | [] => (nm, [], .starved)
  | .ioWouldBlock :: rest => login_loop nm rest
  | .ioError :: _ => (nm, [], .panicked)
  | .decodeError :: _ => (nm, [], .panicked)
  | .packet .loginEncryptionRequest :: _ => (nm, [], .panicked)
  | .packet (.loginSetCompression t) :: rest =>
    login_loop (if t ≤ 0 then { nm with compress := false }
      else { nm with compress := true, threshold := t.toNat }) rest
  | .packet (.loginDisconnect reason) :: _ =>
    ({ nm with close := true }, [.receivePacket (.loginDisconnect reason)], .failure)
  | .packet .loginPluginRequest :: _ => (nm, [], .panicked)
  | .packet (.loginSuccess name) :: _ =>
    ({ nm with state := .Play }, [.receivePacket (.loginSuccess name)], .success)
  | .packet _ :: rest => login_loop nm rest

/-- Result of the `status` receive loop (network.rs 384-407). -/
inductive StatusOutcome where
  | response (resp : String)
  | failed
  | statusPanicked
  | statusStarved
deriving DecidableEq

/-- The receive loop of `status`: returns the first `StatusResponse`,
skips other packets and WouldBlock, panics on decode errors, and returns
`None` (here `.failed`) on other io errors. -/
def status_loop : List ReadResult → StatusOutcome
  | [] => .statusStarved
  | .packet (.statusResponse resp) :: _ => .response resp
  | .packet _ :: rest => status_loop rest
  | .decodeError :: _ => .statusPanicked
  | .ioWouldBlock :: rest => status_loop rest
  | .ioError :: _ => .failed

/-- How the packet-handling loop of `update` (network.rs 150-166) ended. -/
inductive WorkerExit where
  | yielded
  | panicked
  | closed
  | starved
deriving DecidableEq

/-- The packet-handling loop of `update`: while not closed, take the next
read result; WouldBlock returns (yield), any other io error panics, a
decode error is logged and the loop continues, and a decoded packet goes to
`handle_packet`. Returns the final state, wire output, events, and how the
loop ended. -/
def update_loop :
    NetworkManager → List ReadResult →
      NetworkManager × List Packet × List NetworkCommand × WorkerExit
  | nm, [] => if nm.close then (nm, [], [], .closed) else (nm, [], [], .starved)
  | nm, r :: rest =>
    if nm.close then (nm, [], [], .closed)
    else
      match r with
      | .ioWouldBlock => (nm, [], [], .yielded)
      | .ioError => (nm, [], [], .panicked)
      | .decodeError => update_loop nm rest
      | .packet p =>
        let r1 := handle_packet nm p
        let r2 := update_loop r1.1 rest
        (r2.1, r1.2.1 ++ r2.2.1, r1.2.2 ++ r2.2.2.1, r2.2.2.2)

/-- `handle_message` (network.rs 454-484): dispatches one command from the
application. `login` sets the state to Login (after sending the handshake
and login-start packets, not tracked here) and runs the login loop;
`Disconnect` sends a disconnect packet and closes; `RequestStatus` runs the
status loop, forwards any response, and closes. The boolean reports whether
the underlying loop panicked. -/
def handle_message (nm : NetworkManager) (msg : NetworkCommand)
    (reads : List ReadResult) : NetworkManager × List NetworkCommand × Bool :=
  match msg with
  | .login _ _ _ =>
    let r := login_loop { nm with state := .Login } reads
    (r.1, r.2.1, decide (r.2.2 = .panicked))
  | .disconnect => ({ nm with close := true }, [], false)
  | .sendPacket _ => (nm, [], false)
  | .requestStatus =>
    match status_loop reads with
    | .response resp => ({ nm with close := true }, [.receiveStatus resp], false)
    | .statusPanicked => (nm, [], true)
    | _ => ({ nm with close := true }, [], false)
  | _ => (nm, [], false)

/-! ## C4 – C8, C10: state machine properties -/

/-- C4. SetCompression semantics: a non-positive threshold disables the
compression flag (leaving everything else unchanged); a positive threshold
enables compression with exactly that threshold; and in particular
`SetCompression 0` after `SetCompression 512` leaves compression disabled. -/
theorem c4_set_compression (nm : NetworkManager) (t : Int) :
    (t ≤ 0 → (handle_packet nm (.loginSetCompression t)).1
        = { nm with compress := false })
    ∧ (0 < t → (handle_packet nm (.loginSetCompression t)).1
          = { nm with compress := true, threshold := t.toNat }
        ∧ (((handle_packet nm (.loginSetCompression t)).1.threshold : Int)) = t)
    ∧ (handle_packet (handle_packet nm (.loginSetCompression 512)).1
        (.loginSetCompression 0)).1.compress = false := by
  refine ⟨fun h => ?_, fun h => ⟨?_, ?_⟩, ?_⟩
  · simp [handle_packet, if_pos h]
  · simp [handle_packet, if_neg (by omega : ¬ t ≤ 0)]
  · simp [handle_packet, if_neg (by omega : ¬ t ≤ 0)]
    omega
  · norm_num [handle_packet]

/-- Witness for C4 at `t = 0` and `t = 512` from the initial state. -/
theorem c4_set_compression_witness :
    ((0 : Int) ≤ 0 ∧ (handle_packet connect_init (.loginSetCompression 0)).1
        = { connect_init with compress := false })
    ∧ ((0 : Int) < 512 ∧ (handle_packet connect_init (.loginSetCompression 512)).1
        = { connect_init with compress := true, threshold := 512 })
    ∧ (handle_packet (handle_packet connect_init (.loginSetCompression 512)).1
        (.loginSetCompression 0)).1.compress = false :=
  ⟨⟨le_refl 0, (c4_set_compression connect_init 0).1 (le_refl 0)⟩,
    ⟨by norm_num, ((c4_set_compression connect_init 512).2.1 (by norm_num)).1⟩,
    (c4_set_compression connect_init 0).2.2⟩

/-- C5. Login outcomes: `LoginSuccess` moves the state to Play, forwards
the packet as a `ReceivePacket` event, and the login loop returns success;
`LoginDisconnect(reason)` forwards the packet carrying the reason, sets the
close flag, returns failure, and leaves the protocol state unchanged (so it
never becomes Play during a failing login). -/
theorem c5_login_outcomes (nm : NetworkManager) (name reason : String)
    (rest : List ReadResult) :
    login_loop nm (.packet (.loginSuccess name) :: rest)
      = ({ nm with state := .Play },
          [.receivePacket (.loginSuccess name)], .success)
    ∧ login_loop nm (.packet (.loginDisconnect reason) :: rest)
      = ({ nm with close := true },
          [.receivePacket (.loginDisconnect reason)], .failure)
    ∧ (login_loop nm (.packet (.loginDisconnect reason) :: rest)).1.state
        = nm.state :=
  ⟨rfl, rfl, rfl⟩

/-- C6 counterexample: on `LoginEncryptionRequest` the login loop panics:
it does not produce the failure return value, and it sends no event to the
application, contradicting the claim that login returns failure. -/
theorem c6_counterexample_panic :
    (login_loop connect_init [.packet .loginEncryptionRequest]).2.2
        = LoginResult.panicked
    ∧ (login_loop connect_init [.packet .loginEncryptionRequest]).2.2
        ≠ LoginResult.failure
    ∧ (login_loop connect_init [.packet .loginEncryptionRequest]).2.1 = [] :=
  ⟨rfl, by decide, rfl⟩

/-- C6 (amended). Receiving `EncryptionRequest` or `PluginRequest` during
login is fatal to the login attempt, immediately (no hang): the worker
panics at that packet, so login never returns a failure value, no event is
sent to the application, and the state is unchanged. -/
theorem c6_amended_login_panics (nm : NetworkManager) (rest : List ReadResult) :
    login_loop nm (.packet .loginEncryptionRequest :: rest)
        = (nm, [], .panicked)
    ∧ login_loop nm (.packet .loginPluginRequest :: rest)
        = (nm, [], .panicked) :=
  ⟨rfl, rfl⟩

/-- C7. Keep-alive transparency: handling `PlayServerKeepAlive i` writes
exactly one `PlayClientKeepAlive` packet carrying the same `i` to the wire
and emits no event to the application; the state is untouched. -/
theorem c7_keepalive_echo (nm : NetworkManager) (i : Int) :
    handle_packet nm (.playServerKeepAlive i)
      = (nm, [.playClientKeepAlive i], []) :=
  rfl

/-- C8. Worker-loop error handling, from any non-closed state: a decode
error is skipped and the loop continues exactly as if it had not occurred;
a non-WouldBlock io error ends the loop by panicking, processing nothing
further; WouldBlock yields back to the caller without closing. -/
theorem c8_update_loop_errors (nm : NetworkManager) (rest : List ReadResult)
    (h : nm.close = false) :
    update_loop nm (.decodeError :: rest) = update_loop nm rest
    ∧ update_loop nm (.ioError :: rest) = (nm, [], [], .panicked)
    ∧ update_loop nm (.ioWouldBlock :: rest) = (nm, [], [], .yielded) := by
  refine ⟨?_, ?_, ?_⟩ <;> simp [update_loop, h]

/-- Witness for C8 from the freshly connected state. -/
theorem c8_update_loop_errors_witness :
    connect_init.close = false
    ∧ update_loop connect_init [.decodeError, .packet (.playServerKeepAlive 1)]
        = update_loop connect_init [.packet (.playServerKeepAlive 1)]
    ∧ update_loop connect_init [.ioError]
        = (connect_init, [], [], .panicked)
    ∧ update_loop connect_init [.ioWouldBlock]
        = (connect_init, [], [], .yielded) :=
  ⟨rfl,
    (c8_update_loop_errors connect_init [.packet (.playServerKeepAlive 1)] rfl).1,
    (c8_update_loop_errors connect_init [] rfl).2.1,
    (c8_update_loop_errors connect_init [] rfl).2.2⟩

theorem handle_packet_count (nm : NetworkManager) (p : Packet) :
    (handle_packet nm p).1.count = nm.count := by
  cases p <;> simp [handle_packet]
  split <;> rfl

theorem login_loop_count (rs : List ReadResult) :
    ∀ nm, (login_loop nm rs).1.count = nm.count := by
  induction rs with
  | nil => intro nm; rfl
  | cons r rest ih =>
    intro nm
    cases r with
    | packet p =>
      cases p with
      | loginEncryptionRequest => rfl
      | loginSetCompression t =>
        have h := ih (if t ≤ 0 then { nm with compress := false }
          else { nm with compress := true, threshold := t.toNat })
        rw [login_loop, h]
        split <;> rfl
      | loginDisconnect reason => rfl
      | loginPluginRequest => rfl
      | loginSuccess name => rfl
      | playServerKeepAlive i => exact ih nm
      | playClientKeepAlive i => exact ih nm
      | playDisconnect reason => exact ih nm
      | statusResponse resp => exact ih nm
      | otherPlay tag => exact ih nm
    | decodeError => rfl
    | ioWouldBlock => exact ih nm
    | ioError => rfl

theorem update_loop_count (rs : List ReadResult) :
    ∀ nm, (update_loop nm rs).1.count = nm.count := by
  induction rs with
  | nil =>
    intro nm
    rw [update_loop]
    split <;> rfl
  | cons r rest ih =>
    intro nm
    cases r with
    | packet p =>
      rw [update_loop]
      split
      · rfl
      · dsimp only
        rw [ih ((handle_packet nm p).1), handle_packet_count]
    | decodeError =>
      rw [update_loop]
      split
      · rfl
      · exact ih nm
    | ioWouldBlock =>
      rw [update_loop]
      split <;> rfl
    | ioError =>
      rw [update_loop]
      split <;> rfl

/-- C10. The packet counter `count` is 0 at connection creation and is left
unchanged by every modelled operation of the worker (`handle_packet`, the
`login` loop, the `update` loop, `handle_message`, and the stateless
`status` loop by construction): no operation ever counts packets through
it. -/
theorem c10_count_never_changes :
    connect_init.count = 0
    ∧ (∀ nm p, (handle_packet nm p).1.count = nm.count)
    ∧ (∀ nm rs, (login_loop nm rs).1.count = nm.count)
    ∧ (∀ nm rs, (update_loop nm rs).1.count = nm.count)
    ∧ (∀ nm msg reads, (handle_message nm msg reads).1.count = nm.count) := by
  refine ⟨rfl, fun nm p => handle_packet_count nm p,
    fun nm rs => login_loop_count rs nm,
    fun nm rs => update_loop_count rs nm, fun nm msg reads => ?_⟩
  cases msg with
  | login protocol port name =>
    have h := login_loop_count reads { nm with state := .Login }
    simpa [handle_message] using h
  | disconnect => rfl
  | sendPacket bytes => rfl
  | requestStatus =>
    rw [handle_message]
    rcases hs : status_loop reads with resp | _ | _ | _ <;> simp [hs]
  | ok => rfl
  | error => rfl
  | receivePacket p => rfl
  | receiveStatus resp => rfl
  | spawn => rfl

end MinkRaft
